import Mathlib

/-!
# Verification of `go-namespace` (relvacode/go-namespace)

A shallow embedding of `namespace.go` (the current snapshot of the
repository, the first document of `src/namespace.go`).  Go values reached
through `reflect` are modelled by the inductive `RVal`; Go types (needed
only because `names` materialises the zero value of a nil pointer's
pointee type via `reflect.New`) are modelled by `RTy`.

Modelling conventions, stated once here:
* Go slices are modelled as functional lists (`append` is concatenation).
  This is an idealisation: the real `append(prev, n)` reuses spare
  capacity of `prev`'s backing array, writing in place, so inside `names`
  a later sibling's append can overwrite a slot of an already-collected
  path that still shares that array (on deep structs the program emits
  corrupted, unresolvable paths).  The model is exact whenever every
  append allocates — in particular on the shallow inputs evaluated here —
  but it does not capture the aliasing failure mode itself.
* A nil map and an empty map behave identically under `MapIndex`/`MapKeys`,
  so maps are modelled as association lists with the nil map represented
  by the empty list.  Go guarantees distinct keys inside one map.
* Map iteration order in Go is unspecified; the model fixes entry order /
  first-occurrence order as a canonical representative and, where a claim
  is about ordering, an order-parametrised variant is used.
* Values implementing the `Namespacer`/`Namer` hooks delegate resolution
  to arbitrary user code and are outside the model; the model covers the
  generic reflective traversal.
* A `reflect` panic is modelled as the `.error`/`.panicked` branch of the
  result type, carrying the panic message.
* Non-string-keyed maps are represented by one representative key type
  (`Int`), enough to decide every claim that mentions them.
-/

namespace Go

/-- The signed integer kinds of `reflect` that the code's switches cover
(`reflect.Int`, `Int8`, `Int16`, `Int32`, `Int64`). -/
inductive IKind : Type where
  | i | i8 | i16 | i32 | i64
deriving DecidableEq, Repr

/-- The floating point kinds `reflect.Float32` and `reflect.Float64`. -/
inductive FKind : Type where
  | f32 | f64
deriving DecidableEq, Repr

/-- Go types, as far as the embedding needs them: `names` calls
`reflect.New` on the pointee type of a nil pointer, so a nil pointer value
must carry its pointee type.  A struct-type field is
`(name, pkgPath, anonymous, nsTag, type)`. -/
inductive RTy : Type where
  | tInt (k : IKind)
  | tUint
  | tBool
  | tStr
  | tFloat (k : FKind)
  | tStruct (fs : List (String × String × Bool × String × RTy))
  | tMapS (vt : RTy)
  | tMapInt (vt : RTy)
  | tIface
  | tPtr (t : RTy)

/-- A Go value as seen through `reflect.Value`.  A struct field is
`(name, pkgPath, anonymous, nsTag, value)` mirroring
`reflect.StructField` (`PkgPath` nonempty means unexported, `nsTag` is
`Tag.Get "ns"`, empty when absent).  `invalid` is the zero
`reflect.Value`.  `vfloat` keeps the bit payload abstract.  `mapInt`
is a representative non-string-keyed map. -/
inductive RVal : Type where
  | invalid
  | vstr (s : String)
  | vint (k : IKind) (n : Int)
  | vuint (n : Nat)
  | vbool (b : Bool)
  | vfloat (k : FKind) (bits : Nat)
  | strukt (fs : List (String × String × Bool × String × RVal))
  | mapS (es : List (String × RVal))
  | mapInt (es : List (Int × RVal))
  | ptrNil (t : RTy)
  | ptrSome (v : RVal)
  | ifaceNil
  | ifaceVal (v : RVal)

/-- A struct field of a value: `(name, pkgPath, anonymous, nsTag, value)`. -/
abbrev VField : Type := String × String × Bool × String × RVal

/-- A struct field of a type. -/
abbrev TField : Type := String × String × Bool × String × RTy

mutual

/-- Size measure for termination of the traversal functions. -/
def msize : RVal → Nat
  | .invalid => 1
  | .vstr _ => 1
  | .vint _ _ => 1
  | .vuint _ => 1
  | .vbool _ => 1
  | .vfloat _ _ => 1
  | .strukt fs => 1 + msizeF fs
  | .mapS es => 1 + msizeS es
  | .mapInt _ => 1
  | .ptrNil t => 1 + tsize t
  | .ptrSome v => 1 + msize v
  | .ifaceNil => 1
  | .ifaceVal v => 1 + msize v

def msizeF : List VField → Nat
  | [] => 0
  | (_, _, _, _, v) :: r => 1 + msize v + msizeF r

def msizeS : List (String × RVal) → Nat
  | [] => 0
  | (_, v) :: r => 1 + msize v + msizeS r

/-- Size measure on types, aligned with `msize` so that the zero value of
a type is no larger than the type. -/
def tsize : RTy → Nat
  | .tInt _ => 1
  | .tUint => 1
  | .tBool => 1
  | .tStr => 1
  | .tFloat _ => 1
  | .tStruct fs => 1 + tsizeF fs
  | .tMapS _ => 1
  | .tMapInt _ => 1
  | .tIface => 1
  | .tPtr t => 1 + tsize t

def tsizeF : List TField → Nat
  | [] => 0
  | (_, _, _, _, t) :: r => 1 + tsize t + tsizeF r

end

mutual

/-- The zero value of a type, as produced by `reflect.New(t).Elem()`. -/
def zeroVal : RTy → RVal
  | .tInt k => .vint k 0
  | .tUint => .vuint 0
  | .tBool => .vbool false
  | .tStr => .vstr ""
  | .tFloat k => .vfloat k 0
  | .tStruct fs => .strukt (zeroFields fs)
  | .tMapS _ => .mapS []
  | .tMapInt _ => .mapInt []
  | .tIface => .ifaceNil
  | .tPtr t => .ptrNil t

def zeroFields : List TField → List VField
  | [] => []
  | (n, p, a, g, t) :: r => (n, p, a, g, zeroVal t) :: zeroFields r

end

mutual

theorem msize_zeroVal (t : RTy) : msize (zeroVal t) ≤ tsize t := by
  cases t <;> simp [zeroVal, msize, tsize, msizeS]
  case tStruct fs => exact msizeF_zeroFields fs

theorem msizeF_zeroFields (fs : List TField) : msizeF (zeroFields fs) ≤ tsizeF fs := by
  match fs with
  | [] => simp [zeroFields, msizeF, tsizeF]
  | (n, p, a, g, t) :: r =>
    simp only [zeroFields, msizeF, tsizeF]
    have h1 := msize_zeroVal t
    have h2 := msizeF_zeroFields r
    omega

end

/-- One step of `v.Elem()` on an interface value:
`if v.Kind() == reflect.Interface { v = v.Elem() }`.
`Elem` of a nil interface is the zero `reflect.Value`. -/
def stripIface : RVal → RVal
  | .ifaceVal x => x
  | .ifaceNil => .invalid
  | v => v

/-- The pointer-dereferencing loop `for v.Kind() == reflect.Ptr { v = v.Elem() }`.
`Elem` of a nil pointer is the zero `reflect.Value`. -/
def derefAll : RVal → RVal
  | .ptrSome v => derefAll v
  | .ptrNil _ => .invalid
  | v => v

theorem msize_stripIface_le (v : RVal) : msize (stripIface v) ≤ msize v := by
  cases v <;> simp [stripIface, msize]

theorem msize_derefAll_le : (v : RVal) → msize (derefAll v) ≤ msize v
  | .ptrSome w => by
    have h := msize_derefAll_le w
    simp only [derefAll, msize]
    omega
  | .ptrNil _ => by simp [derefAll, msize]
  | .invalid => by simp [derefAll]
  | .vstr _ => by simp [derefAll]
  | .vint _ _ => by simp [derefAll]
  | .vuint _ => by simp [derefAll]
  | .vbool _ => by simp [derefAll]
  | .vfloat _ _ => by simp [derefAll]
  | .strukt _ => by simp [derefAll]
  | .mapS _ => by simp [derefAll]
  | .mapInt _ => by simp [derefAll]
  | .ifaceNil => by simp [derefAll]
  | .ifaceVal _ => by simp [derefAll]

/-- `Field` (namespace.go, lines 150-160): the namespace name of a struct
field and whether a tag mapped it.  `ns := v.Tag.Get("ns"); if ns != ""
then (ns, true) else (v.Name, false)`. -/
def Field (fname tag : String) : String × Bool :=
  if tag != "" then (tag, true) else (fname, false)

/-- The namespace name `ns` computed by `Field`. -/
def fNs (fname tag : String) : String := (Field fname tag).1

/-- The `mapped` flag computed by `Field`. -/
def fMapped (fname tag : String) : Bool := (Field fname tag).2

/-- The transparency test `(f.Anonymous && !mapped) || ns == "-"` shared
by `Get` (line 180) and `names` (line 245). -/
def fTransparent (fname tag : String) (anon : Bool) : Bool :=
  (anon && !fMapped fname tag) || fNs fname tag == "-"

/-- `reflect.Value.MapIndex` on a string-keyed map: the entry's value, or
the zero `reflect.Value` (here `none`) when the key is absent.  Go map
keys are distinct; the model takes the first matching entry. -/
def lookupS : List (String × RVal) → String → Option RVal
  | [], _ => none
  | (k, v) :: rest, name => if k == name then some v else lookupS rest name

/-- The panic raised by `reflect.Value.MapIndex` when the string key is
not assignable to the map's key type (here the representative `int`). -/
def mapIndexPanicMsg : String :=
  "reflect.Value.MapIndex: value of type string is not assignable to type int"

mutual

/-- `Get` (namespace.go, lines 162-194): unwrap one interface layer, then
all pointer layers, then dispatch on the kind.  A struct scans its fields
(`getFields`); a string-keyed map indexes by the segment; a non-string-keyed
map panics inside `reflect.Value.MapIndex`; anything else yields the zero
`reflect.Value` (`none`). -/
def Get (v : RVal) (name : String) : Except String (Option RVal) :=
  match h : derefAll (stripIface v) with
  | .strukt fs => getFields fs name
  | .mapS es => .ok (lookupS es name)
  | .mapInt _ => .error mapIndexPanicMsg
  | _ => .ok none
termination_by 2 * msize v + 1
decreasing_by
  have h1 : msize (derefAll (stripIface v)) ≤ msize v :=
    le_trans (msize_derefAll_le _) (msize_stripIface_le v)
  rw [h] at h1
  simp [msize] at h1
  omega

/-- The field loop inside `Get` (lines 174-189): skip unexported fields;
for a transparent field (`(f.Anonymous && !mapped) || ns == "-"`) first try
the same name inside the field's value and return it when valid; then
match the field's namespace name against the requested name. -/
def getFields : List VField → String → Except String (Option RVal)
  | [], _ => .ok none
  | (fname, pkg, anon, tag, fv) :: rest, name =>
    if pkg != "" then getFields rest name
    else if fTransparent fname tag anon then
      match Get fv name with
      | .error e => .error e
      | .ok (some x) => .ok (some x)
      | .ok none =>
        if fNs fname tag == name then .ok (some fv) else getFields rest name
    else
      if fNs fname tag == name then .ok (some fv) else getFields rest name
termination_by fs name => 2 * msizeF fs
decreasing_by
  all_goals simp [msizeF]
  all_goals omega

end

/-- The prelude of `names` (lines 214-229): a nil map or nil pointer is
replaced by `reflect.New` of its (pointee) type, a nil interface ends the
enumeration (`none`), an interface is unwrapped; then the pointer
dereferencing loop runs.  A nil map equals the empty map in this model, so
its replacement is the identity. -/
def namesNorm : RVal → Option RVal
  | .ifaceNil => none
  | .ptrNil t => some (derefAll (.ptrSome (zeroVal t)))
  | .ifaceVal x => some (derefAll x)
  | v => some (derefAll v)

theorem msize_namesNorm {v d : RVal} (h : namesNorm v = some d) : msize d ≤ msize v := by
  cases v
  case ifaceNil => simp [namesNorm] at h
  case ptrNil t =>
    simp only [namesNorm, Option.some.injEq] at h
    subst h
    have h1 := msize_derefAll_le (RVal.ptrSome (zeroVal t))
    have h2 := msize_zeroVal t
    simp only [msize] at h1 ⊢
    omega
  case ifaceVal x =>
    simp only [namesNorm, Option.some.injEq] at h
    subst h
    have h1 := msize_derefAll_le x
    simp only [msize]
    omega
  all_goals
    simp only [namesNorm, Option.some.injEq] at h
  all_goals subst h
  all_goals exact msize_derefAll_le _

mutual

/-- `names` (lines 213-278): all namespace paths of a value, each
prefixed with `prev`.  The `Namer` hook is outside the model (see the
module docstring).  `append(prev, n)` (lines 246-253, 271-273) is
modelled as pure concatenation; the source's `append` writes into the
shared backing array of `prev` when it has spare capacity, which on
sufficiently deep structs corrupts paths already appended to the result
(see the module docstring) — that mutation is not captured here. -/
def names (v : RVal) (prev : List String) : List (List String) :=
  match h : namesNorm v with
  | none => []
  | some d => namesCore d prev
termination_by 2 * msize v + 1
decreasing_by
  have h1 := msize_namesNorm h
  omega

/-- The final kind switch of `names`: structs enumerate fields, maps
enumerate string keys (a non-string-keyed map contributes nothing since
every key is skipped), anything else has no namespaces. -/
def namesCore (d : RVal) (prev : List String) : List (List String) :=
  match d with
  | .strukt fs => namesFields fs prev
  | .mapS es => namesEntries es prev
  | _ => []
termination_by 2 * msize d
decreasing_by
  all_goals simp [msize]
  all_goals omega

/-- The struct-field loop of `names` (lines 238-255): skip unexported
fields; a transparent field contributes its children unprefixed; a named
field contributes its children's paths prefixed with its name, or the
single path ending at its name when it has no children. -/
def namesFields : List VField → List String → List (List String)
  | [], _ => []
  | (fname, pkg, anon, tag, fv) :: rest, prev =>
    if pkg != "" then namesFields rest prev
    else if fTransparent fname tag anon then
      names fv prev ++ namesFields rest prev
    else
      let tn := names fv (prev ++ [fNs fname tag])
      if tn = [] then (prev ++ [fNs fname tag]) :: namesFields rest prev
      else tn ++ namesFields rest prev
termination_by fs prev => 2 * msizeF fs
decreasing_by
  all_goals simp [msizeF]
  all_goals omega

/-- The map loop of `names` (lines 256-275): for each string-keyed entry,
unwrap one interface layer and all pointers; recurse when the result is a
struct or map, otherwise contribute the single path ending at the key. -/
def namesEntries : List (String × RVal) → List String → List (List String)
  | [], _ => []
  | (k, kv) :: rest, prev =>
    match h : derefAll (stripIface kv) with
    | .strukt fs => names (.strukt fs) (prev ++ [k]) ++ namesEntries rest prev
    | .mapS es2 => names (.mapS es2) (prev ++ [k]) ++ namesEntries rest prev
    | .mapInt es2 => names (.mapInt es2) (prev ++ [k]) ++ namesEntries rest prev
    | _ => (prev ++ [k]) :: namesEntries rest prev
termination_by es prev => 2 * msizeS es
decreasing_by
  all_goals
    first
    | (simp [msizeS]; omega)
    | (have h1 : msize (derefAll (stripIface kv)) ≤ msize kv :=
        le_trans (msize_derefAll_le _) (msize_stripIface_le kv)
       rw [h] at h1
       simp only [msize, msizeS] at h1 ⊢
       omega)

end

/-- `Names` (lines 204-211): `Names(v, prev...)` is `names` of
`reflect.ValueOf(v)` (the zero `reflect.Value` when `v` is nil). -/
def Names (i : Option RVal) (prev : List String) : List (List String) :=
  match i with
  | none => names .invalid prev
  | some v => names v prev

/-- The deduplication of `suggest` (lines 136-141): the set of first
components of the produced paths.  Go collects them in a hash map; the
model keeps first-occurrence order as a canonical representative of the
unspecified iteration order (see `suggestWith`). -/
def uniqKeys (l : List String) : List String :=
  l.foldl (fun acc k => if k ∈ acc then acc else acc ++ [k]) []

/-- Case-insensitive subsequence test: every character of the first list
occurs in the second, in order. -/
def isSubseq : List Char → List Char → Bool
  | [], _ => true
  | _ :: _, [] => false
  | c :: cs, d :: ds => if c == d then isSubseq cs ds else isSubseq (c :: cs) ds

/-- Per-character case folding of a string. -/
def foldChars (s : String) : List Char := s.toList.map Char.toLower

/-- The external collaborator `fuzzy.MatchFold(source, target)`
(github.com/renstrom/fuzzysearch), out of scope per the spec: it reports
whether `source` is a case-insensitive subsequence of `target`.  Unicode
folding is simplified to per-character lower-casing. -/
def matchFold (src tgt : String) : Bool :=
  isSubseq (foldChars src) (foldChars tgt)

/-- The candidate names `suggest` deduplicates: the first component of
every nonempty path of `names(v, nil)`. -/
def suggestCandidates (v : RVal) : List String :=
  uniqKeys ((names v []).filterMap List.head?)

/-- The filtering loop of `suggest` for one fixed iteration order of the
candidate set: keep the candidates `k` with `fuzzy.MatchFold(k, name)`.
Go iterates the deduplicating hash map in unspecified order, so any
permutation of `suggestCandidates` is an admissible `order`. -/
def suggestWith (order : List String) (name : String) : List String :=
  order.filter (fun k => matchFold k name)

/-- `suggest` (lines 130-148) with the canonical first-occurrence
iteration order. -/
def suggest (v : RVal) (name : String) : List String :=
  let nms := names v []
  if nms = [] then []
  else suggestWith (suggestCandidates v) name

/-- The error values of `Namespace`: `ErrNilValue` (line 26) and
`NamespaceError{Suggestions, Ns}` (lines 39-42): the failing segment and
the suggestion set.  The type has no field for the full path. -/
inductive NsError : Type where
  | nilValue
  | nsError (ns : String) (suggestions : List String)
deriving DecidableEq, Repr

/-- Outcome of a `Namespace` call: a Go panic escaping the call, an
`error` return, or a `Value` wrapping the resolved `reflect.Value`. -/
inductive NsResult : Type where
  | panicked (msg : String)
  | failed (e : NsError)
  | ok (v : RVal)

/-- The loop of `Namespace` (lines 114-127): for each segment `Get` the
next value; an invalid result fails with `NamespaceError` carrying the
segment and `suggest` of the current value; a found interface value is
unwrapped one layer.  After the last segment the current value is
returned wrapped. -/
def resolveLoop : RVal → List String → NsResult
  | v, [] => .ok v
  | v, name :: rest =>
    match Get v name with
    | .error e => .panicked e
    | .ok none => .failed (.nsError name (suggest v name))
    | .ok (some n) => resolveLoop (stripIface n) rest

/-- `Namespace` (lines 104-128): nil root fails with `ErrNilValue`,
otherwise the segment loop runs on `reflect.ValueOf(i)`.  The
`Namespacer` hook is outside the model. -/
def Namespace (i : Option RVal) (namespaces : List String) : NsResult :=
  match i with
  | none => .failed .nilValue
  | some v => resolveLoop v namespaces

/-- The `reflect.Kind.String()` rendering of a value's kind, as it
appears in error messages. -/
def kindName : RVal → String
  | .invalid => "invalid"
  | .vstr _ => "string"
  | .vint .i _ => "int"
  | .vint .i8 _ => "int8"
  | .vint .i16 _ => "int16"
  | .vint .i32 _ => "int32"
  | .vint .i64 _ => "int64"
  | .vuint _ => "uint"
  | .vbool _ => "bool"
  | .vfloat .f32 _ => "float32"
  | .vfloat .f64 _ => "float64"
  | .strukt _ => "struct"
  | .mapS _ => "map"
  | .mapInt _ => "map"
  | .ptrNil _ => "ptr"
  | .ptrSome _ => "ptr"
  | .ifaceNil => "interface"
  | .ifaceVal _ => "interface"

/-- `IsNumber` (lines 57-66): true exactly for the signed integer kinds
and the float kinds of the switch. -/
def IsNumber : RVal → Bool
  | .vint _ _ => true
  | .vfloat _ _ => true
  | _ => false

/-- The float64 results `Value.Float` can produce: the widening
`float64(v.Value.Int())` of a signed integer, or the stored floating
point payload returned as-is (`v.Value.Float()`, an exact widening for
float32). -/
inductive GoF64 : Type where
  | ofInt (n : Int)
  | ofBits (k : FKind) (bits : Nat)
deriving DecidableEq, Repr

/-- `Value.Float` (lines 73-82): signed integer kinds widen to float64,
float kinds are returned as-is, every other kind yields
`Kind <k> is not a float` (Go returns `0, err`; the model keeps the
error branch). -/
def ValueFloat : RVal → Except String GoF64
  | .vint _ n => .ok (.ofInt n)
  | .vfloat k bits => .ok (.ofBits k bits)
  | v => .error ("Kind " ++ kindName v ++ " is not a float")

/-- The panic raised by `reflect.Value.Interface` on the zero
`reflect.Value`. -/
def interfacePanicMsg : String :=
  "reflect: call of reflect.Value.Interface on zero Value"

mutual

/-- A deterministic model of the external `fmt.Sprint` on a valid
`reflect` value (out of scope per the spec; any deterministic total
rendering fits the contract). -/
def goSprint : RVal → String
  | .invalid => "invalid"
  | .vstr s => s
  | .vint _ n => toString n
  | .vuint n => toString n
  | .vbool b => if b then "true" else "false"
  | .vfloat _ bits => "float<" ++ toString bits ++ ">"
  | .strukt fs => "\x7b" ++ goSprintF fs ++ "\x7d"
  | .mapS es => "map[" ++ goSprintS es ++ "]"
  | .mapInt _ => "map[]"
  | .ptrNil _ => "<nil>"
  | .ptrSome v => "&" ++ goSprint v
  | .ifaceNil => "<nil>"
  | .ifaceVal v => goSprint v

def goSprintF : List VField → String
  | [] => ""
  | (_, _, _, _, v) :: r => goSprint v ++ " " ++ goSprintF r

def goSprintS : List (String × RVal) → String
  | [] => ""
  | (k, v) :: r => k ++ ":" ++ goSprint v ++ " " ++ goSprintS r

end

/-- `Value.String` (lines 95-102): a string kind returns its payload;
otherwise `fmt.Sprint(v.Interface())` — and `reflect.Value.Interface`
panics when the wrapped value is the zero `reflect.Value`. -/
def ValueString : RVal → Except String String
  | .vstr s => .ok s
  | .invalid => .error interfacePanicMsg
  | v => .ok (goSprint v)

/-- `Value.Int` (lines 84-93): signed integer kinds directly, float kinds
truncated (the truncation of the abstract payload stays abstract). -/
inductive GoI64 : Type where
  | ofInt (n : Int)
  | truncOfBits (k : FKind) (bits : Nat)
deriving DecidableEq, Repr

def ValueInt : RVal → Except String GoI64
  | .vint _ n => .ok (.ofInt n)
  | .vfloat k bits => .ok (.truncOfBits k bits)
  | v => .error ("Kind " ++ kindName v ++ " is not an int")

/-! ## Characterisation lemmas for the well-founded definitions -/

/-- The kind dispatch of `Get` on an already-normalised value. -/
def getCore (d : RVal) (name : String) : Except String (Option RVal) :=
  match d with
  | .strukt fs => getFields fs name
  | .mapS es => .ok (lookupS es name)
  | .mapInt _ => .error mapIndexPanicMsg
  | _ => .ok none

theorem Get_eq_core (v : RVal) (name : String) :
    Get v name = getCore (derefAll (stripIface v)) name := by
  rw [Get]
  split
  · rename_i fs h2
    rw [h2, getCore]
  · rename_i es h2
    rw [h2, getCore]
  · rename_i es h2
    rw [h2, getCore]
  · rename_i hns hnm hni
    cases hd : derefAll (stripIface v)
    case strukt fs => exact (hns fs hd).elim
    case mapS es => exact (hnm es hd).elim
    case mapInt es => exact (hni es hd).elim
    all_goals rfl

theorem getFields_nil (name : String) : getFields [] name = .ok none := by
  rw [getFields]

theorem getFields_cons_unexported {pkg : String} (h : pkg ≠ "")
    (fname : String) (anon : Bool) (tag : String) (fv : RVal)
    (rest : List VField) (name : String) :
    getFields ((fname, pkg, anon, tag, fv) :: rest) name = getFields rest name := by
  rw [getFields]
  simp [h]

theorem getFields_cons_transparent {fname tag : String} {anon : Bool}
    (htr : fTransparent fname tag anon = true) (fv : RVal)
    (rest : List VField) (name : String) :
    getFields ((fname, "", anon, tag, fv) :: rest) name =
      (match Get fv name with
       | .error e => .error e
       | .ok (some x) => .ok (some x)
       | .ok none =>
         if fNs fname tag == name then .ok (some fv) else getFields rest name) := by
  rw [getFields]
  simp [htr]

theorem getFields_cons_named {fname tag : String} {anon : Bool}
    (htr : fTransparent fname tag anon = false) (fv : RVal)
    (rest : List VField) (name : String) :
    getFields ((fname, "", anon, tag, fv) :: rest) name =
      if fNs fname tag == name then .ok (some fv) else getFields rest name := by
  rw [getFields]
  simp [htr]

theorem namesFields_cons_unexported {pkg : String} (h : pkg ≠ "")
    (fname : String) (anon : Bool) (tag : String) (fv : RVal)
    (rest : List VField) (prev : List String) :
    namesFields ((fname, pkg, anon, tag, fv) :: rest) prev = namesFields rest prev := by
  rw [namesFields]
  simp [h]

theorem namesFields_cons_transparent {fname tag : String} {anon : Bool}
    (htr : fTransparent fname tag anon = true) (fv : RVal)
    (rest : List VField) (prev : List String) :
    namesFields ((fname, "", anon, tag, fv) :: rest) prev =
      names fv prev ++ namesFields rest prev := by
  rw [namesFields]
  simp [htr]

theorem namesFields_cons_named {fname tag : String} {anon : Bool}
    (htr : fTransparent fname tag anon = false) (fv : RVal)
    (rest : List VField) (prev : List String) :
    namesFields ((fname, "", anon, tag, fv) :: rest) prev =
      (if names fv (prev ++ [fNs fname tag]) = []
       then (prev ++ [fNs fname tag]) :: namesFields rest prev
       else names fv (prev ++ [fNs fname tag]) ++ namesFields rest prev) := by
  rw [namesFields]
  simp [htr]

theorem getFields_cons_transparent_found {fname tag : String} {anon : Bool} {fv x : RVal}
    {name : String} (htr : fTransparent fname tag anon = true)
    (hG : Get fv name = .ok (some x)) (rest : List VField) :
    getFields ((fname, "", anon, tag, fv) :: rest) name = .ok (some x) := by
  rw [getFields_cons_transparent htr, hG]

theorem getFields_cons_transparent_err {fname tag : String} {anon : Bool} {fv : RVal}
    {name e : String} (htr : fTransparent fname tag anon = true)
    (hG : Get fv name = .error e) (rest : List VField) :
    getFields ((fname, "", anon, tag, fv) :: rest) name = .error e := by
  rw [getFields_cons_transparent htr, hG]

theorem getFields_cons_transparent_none {fname tag : String} {anon : Bool} {fv : RVal}
    {name : String} (htr : fTransparent fname tag anon = true)
    (hG : Get fv name = .ok none) (rest : List VField) :
    getFields ((fname, "", anon, tag, fv) :: rest) name =
      if fNs fname tag == name then .ok (some fv) else getFields rest name := by
  rw [getFields_cons_transparent htr, hG]

theorem resolveLoop_cons_found {v x : RVal} {n : String} (hG : Get v n = .ok (some x))
    (r : List String) : resolveLoop v (n :: r) = resolveLoop (stripIface x) r := by
  simp [resolveLoop, hG]

theorem resolveLoop_cons_none {v : RVal} {n : String} (hG : Get v n = .ok none)
    (r : List String) :
    resolveLoop v (n :: r) = .failed (.nsError n (suggest v n)) := by
  simp [resolveLoop, hG]

theorem resolveLoop_cons_err {v : RVal} {n e : String} (hG : Get v n = .error e)
    (r : List String) : resolveLoop v (n :: r) = .panicked e := by
  simp [resolveLoop, hG]

/-- Fields that all miss a name are skipped: the `Get` scan continues
past them unchanged. -/
theorem getFields_append_of_none {pre : List VField} {name : String}
    (h : getFields pre name = .ok none) (rest : List VField) :
    getFields (pre ++ rest) name = getFields rest name := by
  induction pre with
  | nil => simp
  | cons f pre2 ih =>
    obtain ⟨fname, pkg, anon, tag, fv⟩ := f
    by_cases hpkg : pkg = ""
    · subst hpkg
      by_cases htr : fTransparent fname tag anon = true
      · cases hG : Get fv name with
        | error e =>
          rw [getFields_cons_transparent_err htr hG] at h
          exact absurd h (by simp)
        | ok o =>
          cases o with
          | some x =>
            rw [getFields_cons_transparent_found htr hG] at h
            exact absurd h (by simp)
          | none =>
            rw [getFields_cons_transparent_none htr hG] at h
            rw [List.cons_append, getFields_cons_transparent_none htr hG]
            by_cases hns : (fNs fname tag == name) = true
            · rw [if_pos hns] at h
              exact absurd h (by simp)
            · rw [if_neg hns] at h ⊢
              exact ih h
      · rw [getFields_cons_named (by simpa using htr)] at h
        rw [List.cons_append, getFields_cons_named (by simpa using htr)]
        by_cases hns : (fNs fname tag == name) = true
        · rw [if_pos hns] at h
          exact absurd h (by simp)
        · rw [if_neg hns] at h ⊢
          exact ih h
    · rw [getFields_cons_unexported hpkg] at h
      rw [List.cons_append, getFields_cons_unexported hpkg]
      exact ih h

theorem isSubseq_refl (l : List Char) : isSubseq l l = true := by
  induction l with
  | nil => rfl
  | cons c cs ih => simp [isSubseq, ih]

theorem matchFold_of_eqFold {k name : String} (h : foldChars k = foldChars name) :
    matchFold k name = true := by
  rw [matchFold, h]
  exact isSubseq_refl _

/-- `Get` on a struct skips fields whose `PkgPath` is nonempty, exactly
as if the field were absent. -/
theorem getFields_skip_unexported {pkg : String} (hpkg : pkg ≠ "")
    (pre post : List VField) (fname : String) (anon : Bool) (tag : String) (fv : RVal)
    (n : String) :
    getFields (pre ++ (fname, pkg, anon, tag, fv) :: post) n = getFields (pre ++ post) n := by
  induction pre with
  | nil => simp [getFields_cons_unexported hpkg]
  | cons f pre2 ih =>
    obtain ⟨fn2, pk2, an2, tg2, fv2⟩ := f
    by_cases hp2 : pk2 = ""
    · subst hp2
      by_cases htr : fTransparent fn2 tg2 an2 = true
      · rw [List.cons_append, List.cons_append, getFields_cons_transparent htr,
          getFields_cons_transparent htr]
        cases hG : Get fv2 n with
        | error e => simp [hG]
        | ok o =>
          cases o with
          | some x => simp [hG]
          | none =>
            simp only [hG]
            by_cases hns : (fNs fn2 tg2 == n) = true
            · simp [hns]
            · simp [hns, ih]
      · rw [List.cons_append, List.cons_append, getFields_cons_named (by simpa using htr),
          getFields_cons_named (by simpa using htr)]
        by_cases hns : (fNs fn2 tg2 == n) = true
        · simp [hns]
        · simp [hns, ih]
    · rw [List.cons_append, List.cons_append, getFields_cons_unexported hp2,
        getFields_cons_unexported hp2]
      exact ih

/-- `names` on a struct skips fields whose `PkgPath` is nonempty, exactly
as if the field were absent. -/
theorem namesFields_skip_unexported {pkg : String} (hpkg : pkg ≠ "")
    (pre post : List VField) (fname : String) (anon : Bool) (tag : String) (fv : RVal)
    (prev : List String) :
    namesFields (pre ++ (fname, pkg, anon, tag, fv) :: post) prev
      = namesFields (pre ++ post) prev := by
  induction pre with
  | nil => simp [namesFields_cons_unexported hpkg]
  | cons f pre2 ih =>
    obtain ⟨fn2, pk2, an2, tg2, fv2⟩ := f
    by_cases hp2 : pk2 = ""
    · subst hp2
      by_cases htr : fTransparent fn2 tg2 an2 = true
      · rw [List.cons_append, List.cons_append, namesFields_cons_transparent htr,
          namesFields_cons_transparent htr, ih]
      · rw [List.cons_append, List.cons_append, namesFields_cons_named (by simpa using htr),
          namesFields_cons_named (by simpa using htr), ih]
    · rw [List.cons_append, List.cons_append, namesFields_cons_unexported hp2,
        namesFields_cons_unexported hp2]
      exact ih

/-! ## Claims -/

/-- C1 counterexample: with a non-nil root and the empty path, `Namespace`
does not fail with the no-path error — it returns the root itself wrapped.
The claim, as stated, is false at this input. -/
theorem c1_counterexample :
    Namespace (some (.vstr "hello")) [] = .ok (.vstr "hello") := rfl

/-- C1 (amended): `Namespace` with an empty path succeeds and returns the
root value itself wrapped, for every root; only a nil root is rejected,
with `ErrNilValue` (for every path).  The current snapshot has no
empty-path check, and its doc comment documents this behaviour. -/
theorem c1_empty_path_returns_object :
    (∀ v : RVal, Namespace (some v) [] = .ok v) ∧
    (∀ p : List String, Namespace none p = .failed .nilValue) :=
  ⟨fun _ => rfl, fun _ => rfl⟩

/-- C2: the enumeration/resolution round trip fails on the code,
contradicting the spec's stated testable property and the doc comment of
`Names` itself ("a list of all possible namespaces for the given
object").  Evaluated here at the simplest failing input: `names`
enumerates through a nil pointer by materialising the zero value of its
pointee type, but resolution dereferences the nil pointer to the invalid
value, so the enumerated path `["P", "X"]` fails to resolve.  (This input
is shallow, so the pure-append model is exact here.  A second,
independent failure mode lies outside this model: on deep structs the
source's `append(prev, n)` mutates the shared backing array and corrupts
already-emitted paths, which then fail to resolve as well.) -/
theorem c2_enumerated_path_unresolvable :
    names (.strukt [("P", "", false, "",
        .ptrNil (.tStruct [("X", "", false, "", .tInt .i)]))]) [] = [["P", "X"]]
    ∧ Namespace (some (.strukt [("P", "", false, "",
        .ptrNil (.tStruct [("X", "", false, "", .tInt .i)]))])) ["P", "X"]
      = .failed (.nsError "X" ["X"]) := by
  constructor
  · simp [names, namesNorm, namesCore, namesFields, namesEntries, derefAll, stripIface,
      fNs, fMapped, fTransparent, Field, zeroVal, zeroFields]
  · simp only [Namespace]
    rw [resolveLoop_cons_found (x := .ptrNil (.tStruct [("X", "", false, "", .tInt .i)]))
      (by simp [Get_eq_core, getCore, getFields, fNs, fMapped, fTransparent, Field,
        derefAll, stripIface])]
    rw [resolveLoop_cons_none (by simp [Get_eq_core, getCore, derefAll, stripIface])]
    simp [suggest, suggestWith, suggestCandidates, names, namesNorm, namesCore, namesFields,
      namesEntries, derefAll, stripIface, fNs, fMapped, fTransparent, Field, zeroVal,
      zeroFields, uniqKeys]
    decide

/-- C4: a successful resolution can hand back the zero `reflect.Value`
(resolving a leaf that is a nil interface unwraps it to the invalid
value), and `Value.String` on that wrapped value panics inside
`reflect.Value.Interface` before `fmt.Sprint` is ever reached.  String
extraction is therefore not total on resolved values, contradicting the
claim and the code's own "panic safe methods" comment. -/
theorem c4_string_panics_on_nil_leaf :
    Namespace (some (.mapS [("Key", .ifaceNil)])) ["Key"] = .ok .invalid
    ∧ ValueString .invalid = .error interfacePanicMsg := by
  constructor
  · show resolveLoop _ _ = _
    rw [resolveLoop_cons_found (x := .ifaceNil)
      (by simp [Get_eq_core, getCore, lookupS, derefAll, stripIface])]
    rfl
  · rfl

/-- C5: `Get` on a non-string-keyed map (represented by an int-keyed map)
reaches `v.MapIndex(reflect.ValueOf(name))`, and `reflect.Value.MapIndex`
panics because a string key is not assignable to the map's key type.  The
claim says such a lookup merely finds no match and never crashes; the
code crashes. -/
theorem c5_nonstring_map_panics :
    Namespace (some (.mapInt [(1, .vstr "x")])) ["Key"] = .panicked mapIndexPanicMsg := by
  show resolveLoop _ _ = _
  exact resolveLoop_cons_err (by simp [Get_eq_core, getCore, derefAll, stripIface]) []

/-- C6: transparency consumes no path segment.  If a field is transparent
(`ns` tag `-`, or anonymous without an override), the earlier fields do
not match the segment, and the same segment is found inside the
transparent field's value, then resolution returns that inner result
immediately and continues with the remaining segments — the transparent
field itself occupies no level of the path. -/
theorem c6_transparent_consumes_no_segment (pre post : List VField)
    (fname tag : String) (anon : Bool) (fv x : RVal) (n : String) (rest : List String)
    (htr : fTransparent fname tag anon = true)
    (hpre : getFields pre n = .ok none)
    (hin : Get fv n = .ok (some x)) :
    resolveLoop (.strukt (pre ++ (fname, "", anon, tag, fv) :: post)) (n :: rest)
      = resolveLoop (stripIface x) rest := by
  have hG : Get (.strukt (pre ++ (fname, "", anon, tag, fv) :: post)) n = .ok (some x) := by
    rw [Get_eq_core]
    show getFields (pre ++ (fname, "", anon, tag, fv) :: post) n = .ok (some x)
    rw [getFields_append_of_none hpre]
    exact getFields_cons_transparent_found htr hin post
  rw [resolveLoop_cons_found hG]

theorem c6_witness :
    resolveLoop (.strukt [("Emb", "", true, "",
        .strukt [("Key", "", false, "", .vstr "v")])]) ["Key"] = .ok (.vstr "v") := by
  have h := c6_transparent_consumes_no_segment [] [] "Emb" "" true
    (.strukt [("Key", "", false, "", .vstr "v")]) (.vstr "v") "Key" []
    (by decide) (getFields_nil "Key")
    (by simp [Get_eq_core, getCore, getFields, fNs, fMapped, fTransparent, Field,
      derefAll, stripIface])
  exact h.trans rfl

/-- C7: a non-empty override tag `X` (not `-`) shadows the declared name:
when the earlier fields do not match `X`, segment `X` resolves to that
field's value, and the field's own declared name never matches the field
at that level — the scan passes over it. -/
theorem c7_rename_shadows_declared_name (pre post : List VField) (fname tag : String)
    (anon : Bool) (fv : RVal)
    (h1 : tag ≠ "") (h2 : tag ≠ "-") (h3 : tag ≠ fname)
    (hpre : getFields pre tag = .ok none) :
    getFields (pre ++ (fname, "", anon, tag, fv) :: post) tag = .ok (some fv)
    ∧ ∀ post2, getFields ((fname, "", anon, tag, fv) :: post2) fname
        = getFields post2 fname := by
  have hns : fNs fname tag = tag := by
    simp [fNs, Field, h1]
  have htr : fTransparent fname tag anon = false := by
    simp [fTransparent, fMapped, Field, fNs, h1, h2]
  constructor
  · rw [getFields_append_of_none hpre, getFields_cons_named htr, hns, if_pos (by simp)]
  · intro post2
    rw [getFields_cons_named htr, hns, if_neg (by simp [h3])]

theorem c7_witness :
    getFields ([] ++ ("Sub", "", false, "new", .vstr "inner") :: []) "new"
      = .ok (some (.vstr "inner"))
    ∧ getFields [("Sub", "", false, "new", .vstr "inner"),
        ("Other", "", false, "", .vint .i 1)] "Sub"
      = getFields [("Other", "", false, "", .vint .i 1)] "Sub" := by
  have h := c7_rename_shadows_declared_name [] [] "Sub" "new" false (.vstr "inner")
    (by decide) (by decide) (by decide) (getFields_nil "new")
  exact ⟨h.1, h.2 [("Other", "", false, "", .vint .i 1)]⟩

/-- C8 counterexample: an unsigned integer is an integral numeric shape,
yet `Value.Float` fails on it — its switch covers only the signed kinds
`Int..Int64`, so a `uint` value yields the error `Kind uint is not a
float` (and the code's own numeric predicate `IsNumber` already excludes
unsigned kinds).  The claim's "succeeds for every integral numeric
shape" is therefore false at this input. -/
theorem c8_counterexample :
    IsNumber (.vuint 5) = false
    ∧ ValueFloat (.vuint 5) = .error "Kind uint is not a float" := ⟨rfl, rfl⟩

/-- C8 (amended): `Value.Float` succeeds exactly on the kinds `IsNumber`
accepts — the signed integral kinds (`Int` through `Int64`), widening the
integer to float64, and the float kinds, returned as-is — and fails on
every other kind, unsigned integral kinds included, with an error naming
the kind encountered. -/
theorem c8_float_extraction (v : RVal) :
    (∀ k n, v = .vint k n → ValueFloat v = .ok (.ofInt n))
    ∧ (∀ k b, v = .vfloat k b → ValueFloat v = .ok (.ofBits k b))
    ∧ (IsNumber v = true → ∃ r, ValueFloat v = .ok r)
    ∧ (IsNumber v = false →
        ValueFloat v = .error ("Kind " ++ kindName v ++ " is not a float")) := by
  cases v <;> refine ⟨?_, ?_, ?_, ?_⟩ <;> simp [ValueFloat, IsNumber]

theorem c8_witness :
    ValueFloat (.vint .i64 7) = .ok (.ofInt 7)
    ∧ ValueFloat (.vstr "a") = .error ("Kind " ++ kindName (.vstr "a") ++ " is not a float") :=
  ⟨(c8_float_extraction (.vint .i64 7)).1 .i64 7 rfl,
   (c8_float_extraction (.vstr "a")).2.2.2 rfl⟩

/-- C9 counterexample: `suggest` iterates over a Go hash map whose order
is unspecified, so every permutation of the candidate set is an
admissible iteration order.  For the failed segment "AB" over the
candidates {"ab", "A"} (both retained by `fuzzy.MatchFold`), the
admissible order ["A", "ab"] yields the suggestion list ["A", "ab"]:
its first element is not an exact case-insensitive match of "AB",
although "ab" is one — refuting the exact-match-first guarantee.  The
last conjunct shows the failing resolution in which this set is
computed. -/
theorem c9_counterexample :
    List.Perm ["A", "ab"]
      (suggestCandidates (.mapS [("ab", .vint .i 1), ("A", .vint .i 2)]))
    ∧ suggestWith ["A", "ab"] "AB" = ["A", "ab"]
    ∧ foldChars "ab" = foldChars "AB"
    ∧ foldChars "A" ≠ foldChars "AB"
    ∧ Namespace (some (.mapS [("ab", .vint .i 1), ("A", .vint .i 2)])) ["AB"]
      = .failed (.nsError "AB"
          (suggest (.mapS [("ab", .vint .i 1), ("A", .vint .i 2)]) "AB")) := by
  have hc : suggestCandidates (.mapS [("ab", .vint .i 1), ("A", .vint .i 2)]) = ["ab", "A"] := by
    simp [suggestCandidates, names, namesNorm, namesCore, namesEntries, namesFields,
      derefAll, stripIface, uniqKeys]
  refine ⟨by rw [hc]; decide, by decide, by decide, by decide, ?_⟩
  show resolveLoop _ _ = _
  rw [resolveLoop_cons_none (by simp [Get_eq_core, getCore, lookupS, derefAll, stripIface])]

/-- C9 (amended): for every admissible iteration order of the candidate
set, the suggestion list retains every candidate that equals the failed
segment case-insensitively — so it is non-empty whenever such a sibling
name exists.  The code imposes no ordering on the retained names (they
are appended in hash-map iteration order), so no first-position guarantee
holds. -/
theorem c9_exact_match_retained (v : RVal) (order : List String) (name k : String)
    (hperm : order.Perm (suggestCandidates v))
    (hmem : k ∈ suggestCandidates v)
    (hfold : foldChars k = foldChars name) :
    k ∈ suggestWith order name ∧ suggestWith order name ≠ [] := by
  have hk : k ∈ order := hperm.mem_iff.mpr hmem
  have hm : matchFold k name = true := matchFold_of_eqFold hfold
  have hin : k ∈ suggestWith order name := by
    rw [suggestWith]
    exact List.mem_filter.mpr ⟨hk, hm⟩
  refine ⟨hin, fun hnil => ?_⟩
  rw [hnil] at hin
  exact absurd hin (List.not_mem_nil k)

theorem c9_witness :
    "ab" ∈ suggestWith (suggestCandidates (.mapS [("ab", .vint .i 1), ("A", .vint .i 2)])) "AB"
    ∧ suggestWith (suggestCandidates (.mapS [("ab", .vint .i 1), ("A", .vint .i 2)])) "AB"
      ≠ [] :=
  c9_exact_match_retained (.mapS [("ab", .vint .i 1), ("A", .vint .i 2)])
    (suggestCandidates (.mapS [("ab", .vint .i 1), ("A", .vint .i 2)])) "AB" "ab"
    (List.Perm.refl _)
    (by simp [suggestCandidates, names, namesNorm, namesCore, namesEntries, namesFields,
      derefAll, stripIface, uniqKeys])
    (by decide)

/-- C10: an unexported field (nonempty `PkgPath`) is invisible: both the
`Get` field scan and the `names` enumeration behave exactly as if the
field were absent, whatever its tag, name, anonymity or value. -/
theorem c10_unexported_invisible (pre post : List VField) (fname pkg : String)
    (anon : Bool) (tag : String) (fv : RVal) (n : String) (prev : List String)
    (hpkg : pkg ≠ "") :
    getFields (pre ++ (fname, pkg, anon, tag, fv) :: post) n = getFields (pre ++ post) n
    ∧ namesFields (pre ++ (fname, pkg, anon, tag, fv) :: post) prev
      = namesFields (pre ++ post) prev :=
  ⟨getFields_skip_unexported hpkg pre post fname anon tag fv n,
   namesFields_skip_unexported hpkg pre post fname anon tag fv prev⟩

theorem c10_witness :
    getFields ([] ++ ("secret", "mypkg", false, "Key", .vstr "s")
        :: [("Key", "", false, "", .vint .i 1)]) "Key"
      = getFields ([] ++ [("Key", "", false, "", .vint .i 1)]) "Key"
    ∧ namesFields ([] ++ ("secret", "mypkg", false, "Key", .vstr "s")
        :: [("Key", "", false, "", .vint .i 1)]) []
      = namesFields ([] ++ [("Key", "", false, "", .vint .i 1)]) [] :=
  c10_unexported_invisible [] [("Key", "", false, "", .vint .i 1)] "secret" "mypkg"
    false "Key" (.vstr "s") "Key" [] (by decide)

end Go
